import Mathlib

/-!
Verification development for the kraky WebSocket market-data client.

The Rust sources are shallowly embedded:
* `f64` prices, quantities and multipliers are modelled as exact rationals
  (`ℚ`); the Rust code never exercises NaN/inf paths in the fragments
  embedded here, and the decimal formatting in the checksum operates at
  10^-10 granularity, far above the f64 rounding error of the values involved.
* `BTreeMap<OrderedFloat, f64>` sides are modelled as association lists of
  `(price, qty)` pairs kept in ascending key order (the map's iteration
  order); `remove` is key-filtering, which coincides with `BTreeMap::remove`
  on the unique-key lists a `BTreeMap` produces.
* `u32`/`u64` values are `Nat` with explicit wrap/saturation where the Rust
  code casts.
* Strings are Lean `String`s; byte-level `&str` operations (`len`, `find`,
  slicing) are computed from the UTF-8 sizes of the characters.
-/

set_option maxHeartbeats 1000000

namespace Kraky

/-- Lookup in an association list keyed by rational prices
(`BTreeMap::get`, first match). -/
def lookupKV : List (ℚ × ℚ) → ℚ → Option ℚ
  | [], _ => none
  | (k, v) :: t, p => if p = k then some v else lookupKV t p

/-- Ordered insert-or-replace, mirroring `BTreeMap::insert` on a
price-ascending association list. -/
def insertKV : List (ℚ × ℚ) → ℚ → ℚ → List (ℚ × ℚ)
  | [], k, v => [(k, v)]
  | (k', v') :: t, k, v =>
    if k < k' then (k, v) :: (k', v') :: t
    else if k = k' then (k, v) :: t
    else (k', v') :: insertKV t k v

/-- Key removal, mirroring `BTreeMap::remove`: every pair at the key is
dropped (a `BTreeMap` holds each key at most once). -/
def eraseKV : List (ℚ × ℚ) → ℚ → List (ℚ × ℚ)
  | [], _ => []
  | (a, b) :: t, k => if a = k then eraseKV t k else (a, b) :: eraseKV t k

/-- A raw price level from the wire (`PriceLevelRaw`). -/
structure PriceLevelRaw where
  price : ℚ
  qty : ℚ
  deriving DecidableEq, Repr

/-- Orderbook message type tag (`OrderbookUpdateType`). -/
inductive OrderbookUpdateType where
  | snapshot
  | update
  deriving DecidableEq, Repr

/-- Per-symbol orderbook delta payload (`OrderbookData`). -/
structure OrderbookData where
  symbol : String
  bids : List PriceLevelRaw
  asks : List PriceLevelRaw
  checksum : ℕ
  timestamp : String
  deriving DecidableEq, Repr

/-- A full orderbook message (`OrderbookUpdate`): type tag plus a vector of
per-symbol deltas. -/
structure OrderbookUpdate where
  channel : String
  update_type : OrderbookUpdateType
  data : List OrderbookData
  deriving DecidableEq, Repr

/-- The managed orderbook replica (`Orderbook`).  Both sides are
price-ascending association lists; `BTreeMap` iteration order is ascending,
so the best bid is the last `bids` entry and the best ask the first `asks`
entry. -/
structure Orderbook where
  symbol : String
  bids : List (ℚ × ℚ)
  asks : List (ℚ × ℚ)
  timestamp : String
  sequence : ℕ
  last_checksum : ℕ
  checksum_valid : Bool
  deriving DecidableEq, Repr

/-- `Orderbook::new`: a fresh empty replica. -/
def Orderbook.new (symbol : String) : Orderbook :=
  { symbol := symbol
    bids := []
    asks := []
    timestamp := ""
    sequence := 0
    last_checksum := 0
    checksum_valid := true }

/-- Round to the nearest integer, ties to even — the rounding Rust's float
formatter applies when printing with a fixed number of fractional digits. -/
def roundTiesEven (q : ℚ) : ℤ :=
  let fl := ⌊q⌋
  let r := q - fl
  if r < 1/2 then fl
  else if 1/2 < r then fl + 1
  else if 2 ∣ fl then fl else fl + 1

/-- Left-pad a digit string with zeros to the given width. -/
def padZeros (w : ℕ) (s : List Char) : List Char :=
  List.replicate (w - s.length) '0' ++ s

/-- The character for a decimal digit (only applied to values below ten). -/
def digitChar : ℕ → Char
  | 0 => '0' | 1 => '1' | 2 => '2' | 3 => '3' | 4 => '4'
  | 5 => '5' | 6 => '6' | 7 => '7' | 8 => '8' | 9 => '9'
  | _ => '*'

/-- Fuelled big-endian decimal rendering of a natural number. -/
def natDigitsCore : ℕ → ℕ → List Char → List Char
  | 0, _, acc => acc
  | fuel + 1, n, acc =>
    if n < 10 then digitChar n :: acc
    else natDigitsCore fuel (n / 10) (digitChar (n % 10) :: acc)

/-- Decimal digit characters of a natural number (no leading zeros;
`0` renders as the single digit `0`), as produced by Rust's integer
formatting. -/
def natDigits (n : ℕ) : List Char :=
  natDigitsCore (n + 1) n []

/-- Decimal rendering of a scaled non-negative value: integer part, a
point, then exactly ten fractional digits. -/
def fmtNat (n : ℕ) : List Char :=
  natDigits (n / 10 ^ 10) ++ '.' :: padZeros 10 (natDigits (n % 10 ^ 10))

/-- The character sequence Rust's `format!` with 10 fractional digits
produces for a non-negative value: integer part, a point, then exactly ten
fractional digits of the correctly rounded value. -/
def fmt10abs (v : ℚ) : List Char :=
  fmtNat (roundTiesEven (v * 10 ^ 10)).toNat

/-- Rust fixed-precision formatting of an f64 value with 10 fractional
digits, including the sign. -/
def fmt10 (v : ℚ) : List Char :=
  if v < 0 then '-' :: fmt10abs (-v) else fmt10abs v

/-- Drop trailing occurrences of a character (`str::trim_end_matches`). -/
def dropTrailing (c : Char) (l : List Char) : List Char :=
  (l.reverse.dropWhile (fun x => x = c)).reverse

/-- `Orderbook::format_for_checksum`: format with 10 fractional digits,
delete the decimal point, strip leading zeros (yielding a lone zero when
nothing remains), then strip trailing zeros. -/
def format_for_checksum (value : ℚ) : List Char :=
  let formatted := fmt10 value
  let withoutDecimal := formatted.filter (fun c => c ≠ '.')
  let trimmed := withoutDecimal.dropWhile (fun c => c = '0')
  if trimmed.isEmpty then ['0'] else dropTrailing '0' trimmed

/-- One bit-step of the reflected CRC-32 (polynomial `0xEDB88320`). -/
def crc32Round (c : ℕ) : ℕ :=
  if c % 2 = 1 then (c / 2) ^^^ 0xEDB88320 else c / 2

/-- Fold one byte into a CRC-32 accumulator. -/
def crc32Byte (crc b : ℕ) : ℕ :=
  crc32Round^[8] (crc ^^^ b)

/-- CRC-32 (IEEE, as computed by `crc32fast::hash`) of a byte sequence. -/
def crc32 (bytes : List ℕ) : ℕ :=
  (bytes.foldl crc32Byte 0xFFFFFFFF) ^^^ 0xFFFFFFFF

/-- Bytes of the checksum input string.  The checksum strings consist of
ASCII digit and sign characters only, whose UTF-8 bytes equal their code
points. -/
def strBytes (s : List Char) : List ℕ :=
  s.map Char.toNat

/-- `Orderbook::calculate_checksum`: push the formatted price then quantity
of the first ten asks in ascending order, then of the first ten bids in
descending order, and CRC-32 the accumulated string. -/
def Orderbook.calculate_checksum (ob : Orderbook) : ℕ :=
  let data₁ := (ob.asks.take 10).foldl
    (fun s kv => s ++ format_for_checksum kv.1 ++ format_for_checksum kv.2) []
  let data₂ := (ob.bids.reverse.take 10).foldl
    (fun s kv => s ++ format_for_checksum kv.1 ++ format_for_checksum kv.2) data₁
  crc32 (strBytes data₂)

/-- `Orderbook::validate_checksum`. -/
def Orderbook.validate_checksum (ob : Orderbook) (expected : ℕ) : Bool :=
  ob.calculate_checksum == expected

/-- Apply one side's levels of a delta: zero quantity removes the price,
any other quantity inserts or replaces it. -/
def applyLevels (side : List (ℚ × ℚ)) (levels : List PriceLevelRaw) : List (ℚ × ℚ) :=
  levels.foldl
    (fun m l => if l.qty = 0 then eraseKV m l.price else insertKV m l.price l.qty)
    side

/-- `Orderbook::apply_update`: set the timestamp, bump the sequence, apply
both sides' levels, and when the delta carries a non-zero checksum record it
and validate the book against it. -/
def Orderbook.apply_update (ob : Orderbook) (data : OrderbookData) : Orderbook :=
  let ob' : Orderbook :=
    { ob with
      timestamp := data.timestamp
      sequence := ob.sequence + 1
      bids := applyLevels ob.bids data.bids
      asks := applyLevels ob.asks data.asks }
  if data.checksum ≠ 0 then
    { ob' with
      last_checksum := data.checksum
      checksum_valid := ob'.validate_checksum data.checksum }
  else ob'

/-- `Orderbook::best_bid`: the last (highest) bid key. -/
def Orderbook.best_bid (ob : Orderbook) : Option ℚ :=
  ob.bids.getLast?.map Prod.fst

/-- `Orderbook::best_ask`: the first (lowest) ask key. -/
def Orderbook.best_ask (ob : Orderbook) : Option ℚ :=
  ob.asks.head?.map Prod.fst

/-- Modify the entry at a key of a string-keyed association list, when
present (the `get_mut` pattern on the symbol-indexed replica map). -/
def updateAt (m : List (String × Orderbook)) (key : String)
    (f : Orderbook → Orderbook) : List (String × Orderbook) :=
  match m with
  | [] => []
  | (k, v) :: t => if key = k then (k, f v) :: t else (k, v) :: updateAt t key f

/-- Lookup in the symbol-indexed replica map. -/
def lookupBook : List (String × Orderbook) → String → Option Orderbook
  | [], _ => none
  | (k, v) :: t, key => if key = k then some v else lookupBook t key

/-- The orderbook branch of `ConnectionManager::handle_message`: for each
per-symbol delta of the message, apply it to the symbol's replica when one
exists.  The message's `update_type` is never consulted. -/
def processOrderbookMessage (books : List (String × Orderbook))
    (update : OrderbookUpdate) : List (String × Orderbook) :=
  update.data.foldl (fun bs d => updateAt bs d.symbol (fun ob => ob.apply_update d)) books

/-- `KrakyClient::is_orderbook_valid`: the stored replica's
`checksum_valid` flag, or `none` when no replica exists for the pair. -/
def is_orderbook_valid (books : List (String × Orderbook)) (pair : String) :
    Option Bool :=
  (lookupBook books pair).map Orderbook.checksum_valid

/-- Trim leading zero characters, following the specification's wording. -/
def specTrimLead : List Char → List Char
  | [] => []
  | c :: t => if c = '0' then specTrimLead t else c :: t

/-- Trim trailing zero characters: reverse, trim leading, reverse. -/
def specTrimTrail (l : List Char) : List Char :=
  (specTrimLead l.reverse).reverse

/-- The checksum formatter as the specification words it: format with ten
fractional digits, remove the decimal point, trim leading zeros (using a
lone zero if the result is empty), then trim trailing zeros. -/
def format_spec (value : ℚ) : List Char :=
  let digits := specTrimLead ((fmt10 value).erase '.')
  if digits = [] then ['0'] else specTrimTrail digits

/-- The checksum as the specification words it: the ten lowest asks in
ascending price order, then the ten highest bids in descending order;
concatenate price-string then qty-string per level; CRC-32 the bytes. -/
def checksum_spec (ob : Orderbook) : ℕ :=
  let levels := ob.asks.take 10 ++ ob.bids.reverse.take 10
  crc32 (strBytes (levels.map (fun kv => format_spec kv.1 ++ format_spec kv.2)).flatten)

/-- The value a delta leaves at one price: the last level of the delta at
that price wins, with zero quantity meaning removal; absent the price, the
prior value stands. -/
def levelLookup (base : Option ℚ) (levels : List PriceLevelRaw) (p : ℚ) : Option ℚ :=
  levels.foldl
    (fun acc l => if l.price = p then (if l.qty = 0 then none else some l.qty) else acc)
    base

/-- `ReconnectConfig`.  Durations are natural numbers of nanoseconds; the
f64 multiplier is an exact rational. -/
structure ReconnectConfig where
  enabled : Bool
  initial_delay : ℕ
  max_delay : ℕ
  backoff_multiplier : ℚ
  max_attempts : Option ℕ
  deriving DecidableEq, Repr

/-- `ReconnectConfig::default`: 500 ms initial, 30 s cap, doubling,
unlimited attempts. -/
def ReconnectConfig.default : ReconnectConfig :=
  ⟨true, 500000000, 30000000000, 2, none⟩

/-- `ReconnectConfig::aggressive`: 100 ms initial, 5 s cap, times 1.5. -/
def ReconnectConfig.aggressive : ReconnectConfig :=
  ⟨true, 100000000, 5000000000, 3/2, none⟩

/-- `ReconnectConfig::conservative`: 1 s initial, 60 s cap, doubling, at
most ten attempts. -/
def ReconnectConfig.conservative : ReconnectConfig :=
  ⟨true, 1000000000, 60000000000, 2, some 10⟩

/-- The Rust `as u64` cast of a finite non-negative-or-negative f64:
negative values clamp to zero, large values saturate at the largest u64. -/
def ratToU64 (q : ℚ) : ℕ :=
  if q < 0 then 0 else min ⌊q⌋.toNat (2 ^ 64 - 1)

/-- The (wrapping) `u32 → i32` reinterpretation applied to the attempt
counter by `powi(attempt as i32)`. -/
def powiExp (attempt : ℕ) : ℤ :=
  if attempt % 2 ^ 32 < 2 ^ 31 then ((attempt % 2 ^ 32 : ℕ) : ℤ)
  else ((attempt % 2 ^ 32 : ℕ) : ℤ) - 2 ^ 32

/-- `ReconnectConfig::delay_for_attempt`: whole milliseconds of the initial
delay times the multiplier to the (i32-wrapped) attempt, cast to u64
milliseconds, capped by the maximum delay.  (For a zero multiplier and a
wrapped-negative exponent the rational model yields zero where the f64 code
would produce an infinity; no multiplier below one is exercised here.) -/
def delay_for_attempt (c : ReconnectConfig) (attempt : ℕ) : ℕ :=
  let delay_ms : ℚ := ((c.initial_delay / 1000000 : ℕ) : ℚ) *
    c.backoff_multiplier ^ powiExp attempt
  min (1000000 * ratToU64 delay_ms) c.max_delay

/-- The delay the claim asserts: the exact product of the initial delay and
the multiplier to the k-th power, capped by the maximum delay, in
nanoseconds. -/
def claimDelay (c : ReconnectConfig) (k : ℕ) : ℚ :=
  min ((c.initial_delay : ℚ) * c.backoff_multiplier ^ k) (c.max_delay : ℚ)

/-- `KrakenSeverity`. -/
inductive KrakenSeverity where
  | error
  | warning
  | unknown
  deriving DecidableEq, Repr

/-- `KrakenCategory`. -/
inductive KrakenCategory where
  | query
  | service
  | api
  | order
  | trade
  | funding
  | auth
  | general
  | unknownCat (tag : String)
  deriving DecidableEq, Repr

/-- `KrakenApiError`: the parsed provider error. -/
structure KrakenApiError where
  severity : KrakenSeverity
  category : KrakenCategory
  message : String
  raw : String
  deriving DecidableEq, Repr

/-- UTF-8 byte length of a character sequence (`str::len`). -/
def byteLen : List Char → ℕ
  | [] => 0
  | c :: t => c.utf8Size + byteLen t

/-- The Unicode White_Space property, as `char::is_whitespace` tests it. -/
def isRustWhitespace (c : Char) : Bool :=
  [0x09, 0x0A, 0x0B, 0x0C, 0x0D, 0x20, 0x85, 0xA0, 0x1680,
   0x2000, 0x2001, 0x2002, 0x2003, 0x2004, 0x2005, 0x2006, 0x2007,
   0x2008, 0x2009, 0x200A, 0x2028, 0x2029, 0x202F, 0x205F, 0x3000].contains c.toNat

/-- `str::trim`: drop whitespace from both ends. -/
def rustTrim (l : List Char) : List Char :=
  ((l.dropWhile isRustWhitespace).reverse.dropWhile isRustWhitespace).reverse

/-- The category-tag match of `KrakenApiError::parse`. -/
def categoryOfTag (tag : String) : KrakenCategory :=
  if tag = "Query" then .query
  else if tag = "Service" then .service
  else if tag = "API" then .api
  else if tag = "Order" then .order
  else if tag = "Trade" then .trade
  else if tag = "Funding" then .funding
  else if tag = "Auth" then .auth
  else if tag = "General" then .general
  else .unknownCat tag

/-- The unparseable-input fallback of `KrakenApiError::parse`: a General
error carrying the whole input. -/
def generalFallback (s : String) : KrakenApiError :=
  ⟨.error, .general, s, s⟩

/-- `KrakenApiError::parse`.  `none` models the two byte-slicing panics of
the Rust code: a leading colon (`&error[1..0]`) and a multi-byte first
character (byte 1 is then not a character boundary). -/
def parseKrakenApiError (s : String) : Option KrakenApiError :=
  if 2 ≤ byteLen s.data then
    if ':' ∈ s.data then
      match s.data with
      | [] => some (generalFallback s)
      | c :: rest =>
        if c = ':' then none
        else if c.utf8Size ≠ 1 then none
        else
          some
            { severity :=
                if c = 'E' then .error else if c = 'W' then .warning else .unknown
              category := categoryOfTag (String.mk (rest.takeWhile (fun x => x ≠ ':')))
              message := String.mk (rustTrim ((rest.dropWhile (fun x => x ≠ ':')).drop 1))
              raw := s }
    else some (generalFallback s)
  else some (generalFallback s)

/-- One bounded subscription channel: the buffered queue, the two
statistics counters, and the items the consumer has taken so far. -/
structure ChannelState (α : Type) where
  queue : List α
  delivered : ℕ
  dropped : ℕ
  received : List α
  deriving DecidableEq, Repr

/-- A fresh channel. -/
def initChan {α : Type} : ChannelState α :=
  ⟨[], 0, 0, []⟩

/-- `SubscriptionSender::send` over a bounded queue of capacity `C`
(`try_send`): room enqueues and counts a delivery; a full queue discards
the item and counts a drop.  Either way the producer returns at once. -/
def trySend {α : Type} (C : ℕ) (st : ChannelState α) (a : α) : ChannelState α :=
  if st.queue.length < C then
    { st with queue := st.queue ++ [a], delivered := st.delivered + 1 }
  else
    { st with dropped := st.dropped + 1 }

/-- One consumer receive: pop the head of the queue, when any. -/
def recvOne {α : Type} (st : ChannelState α) : ChannelState α :=
  match st.queue with
  | [] => st
  | a :: rest => { st with queue := rest, received := st.received ++ [a] }

/-- An interleaving step: a producer send or a consumer receive. -/
inductive ChanOp (α : Type) where
  | produce (a : α)
  | consume
  deriving DecidableEq, Repr

/-- Run an interleaving of channel operations. -/
def runOps {α : Type} (C : ℕ) (ops : List (ChanOp α)) (st : ChannelState α) :
    ChannelState α :=
  ops.foldl
    (fun s op =>
      match op with
      | .produce a => trySend C s a
      | .consume => recvOne s)
    st

/-- Number of produce steps in an interleaving. -/
def numProduces {α : Type} : List (ChanOp α) → ℕ
  | [] => 0
  | .produce _ :: t => numProduces t + 1
  | .consume :: t => numProduces t

/-- Number of consume steps in an interleaving. -/
def numConsumes {α : Type} : List (ChanOp α) → ℕ
  | [] => 0
  | .produce _ :: t => numConsumes t
  | .consume :: t => numConsumes t + 1

/-- The items sent, in send order. -/
def producedItems {α : Type} : List (ChanOp α) → List α
  | [] => []
  | .produce a :: t => a :: producedItems t
  | .consume :: t => producedItems t

/-- Whether the queue is below capacity at every produce step of the
interleaving: the consumer always keeps the queue non-full. -/
def neverFull {α : Type} (C : ℕ) : ChannelState α → List (ChanOp α) → Bool
  | _, [] => true
  | st, .produce a :: t =>
    decide (st.queue.length < C) && neverFull C (trySend C st a) t
  | st, .consume :: t => neverFull C (recvOne st) t

/-- `TradeSide`. -/
inductive TradeSide where
  | buy
  | sell
  deriving DecidableEq, Repr

/-- `TradeOrderType`. -/
inductive TradeOrderType where
  | market
  | limit
  deriving DecidableEq, Repr

/-- A typed trade (`Trade`). -/
structure Trade where
  symbol : String
  side : TradeSide
  price : ℚ
  qty : ℚ
  ord_type : TradeOrderType
  trade_id : ℤ
  timestamp : String
  deriving DecidableEq, Repr

/-- A raw trade payload element (`TradeDataRaw`). -/
structure TradeDataRaw where
  symbol : String
  side : TradeSide
  price : ℚ
  qty : ℚ
  ord_type : TradeOrderType
  trade_id : ℤ
  timestamp : String
  deriving DecidableEq, Repr

/-- `TradeDataRaw::to_trade`. -/
def TradeDataRaw.to_trade (d : TradeDataRaw) : Trade :=
  ⟨d.symbol, d.side, d.price, d.qty, d.ord_type, d.trade_id, d.timestamp⟩

/-- A trade message (`TradeUpdate`). -/
structure TradeUpdate where
  channel : String
  update_type : String
  data : List TradeDataRaw
  deriving DecidableEq, Repr

/-- A registered orderbook subscription endpoint: symbol filter plus its
bounded channel. -/
structure OrderbookSubEntry where
  symbol : String
  chan : ChannelState OrderbookUpdate
  deriving DecidableEq, Repr

/-- A registered trade subscription endpoint. -/
structure TradeSubEntry where
  symbol : String
  chan : ChannelState Trade
  deriving DecidableEq, Repr

/-- `SubscriptionManager::dispatch_orderbook`: for each per-symbol delta of
the message, try-send the whole message to every endpoint whose filter
equals that delta's symbol or is the wildcard. -/
def dispatch_orderbook (C : ℕ) (subs : List OrderbookSubEntry)
    (update : OrderbookUpdate) : List OrderbookSubEntry :=
  update.data.foldl
    (fun ss d =>
      ss.map (fun sub =>
        if sub.symbol = d.symbol ∨ sub.symbol = "*" then
          { sub with chan := trySend C sub.chan update }
        else sub))
    subs

/-- `SubscriptionManager::dispatch_trade`: convert each payload element to
a typed trade and try-send it to every endpoint whose filter matches. -/
def dispatch_trade (C : ℕ) (subs : List TradeSubEntry)
    (update : TradeUpdate) : List TradeSubEntry :=
  update.data.foldl
    (fun ss d =>
      ss.map (fun sub =>
        if sub.symbol = d.to_trade.symbol ∨ sub.symbol = "*" then
          { sub with chan := trySend C sub.chan d.to_trade }
        else sub))
    subs

/-- How many payload elements of an orderbook message match a filter. -/
def matchCountOB (filter : String) (l : List OrderbookData) : ℕ :=
  (l.filter (fun d => filter = d.symbol ∨ filter = "*")).length

/-- How many payload elements of a trade message match a filter. -/
def matchCountTr (filter : String) (l : List TradeDataRaw) : ℕ :=
  (l.filter (fun d => filter = d.to_trade.symbol ∨ filter = "*")).length

/-- A replica holding one bid level at price 1, reached by a delta. -/
def c1Book : Orderbook :=
  (Orderbook.new "S").apply_update ⟨"S", [⟨1, 5⟩], [], 0, "t0"⟩

/-- A one-symbol replica map. -/
def c1Books : List (String × Orderbook) := [("S", c1Book)]

/-- A snapshot message that carries a single bid level at price 2 and no
level at price 1. -/
def c1Snap : OrderbookUpdate :=
  ⟨"book", .snapshot, [⟨"S", [⟨2, 1⟩], [], 0, "t1"⟩]⟩

/-- A delta installing one ask at price 10. -/
def c2DeltaA : OrderbookData := ⟨"S", [], [⟨10, 1⟩], 0, ""⟩

/-- A later delta installing one bid at price 20, above the resting ask. -/
def c2DeltaB : OrderbookData := ⟨"S", [⟨20, 1⟩], [], 0, ""⟩

/-- The crossed replica the two deltas produce from the empty book. -/
def c2CrossedBook : Orderbook :=
  ((Orderbook.new "S").apply_update c2DeltaA).apply_update c2DeltaB

/-- An uncrossed replica: one bid below one ask. -/
def c2GoodBook : Orderbook :=
  (Orderbook.new "G").apply_update ⟨"G", [⟨1, 1⟩], [⟨2, 1⟩], 0, ""⟩

/-- A delta carrying a non-zero checksum field. -/
def c3Data : OrderbookData := ⟨"W", [⟨1, 2⟩], [], 7, "ts"⟩

/-- A delta whose checksum field is zero. -/
def c10Delta : OrderbookData := ⟨"B", [⟨3, 1⟩], [], 0, "z"⟩

/-- A replica map holding the book built from the zero-checksum delta. -/
def c10Books : List (String × Orderbook) :=
  [("B", (Orderbook.new "B").apply_update c10Delta)]

/-- Three produces and one consume: at capacity one, one item is delivered
immediately, the other two find the queue full. -/
def c8Ops : List (ChanOp ℕ) :=
  [.produce 1, .produce 2, .produce 3, .consume]

/-- A single orderbook subscription filtered on one symbol. -/
def c9Subs : List OrderbookSubEntry := [⟨"BTC/USD", initChan⟩]

/-- One orderbook message whose data array holds two payload elements for
the same symbol. -/
def c9Update : OrderbookUpdate :=
  ⟨"book", .update,
    [⟨"BTC/USD", [⟨1, 1⟩], [], 0, "a"⟩, ⟨"BTC/USD", [⟨2, 1⟩], [], 0, "b"⟩]⟩

/-- Looking a price up after an ordered insert finds the inserted quantity
at that price and is unchanged elsewhere. -/
theorem lookupKV_insertKV (m : List (ℚ × ℚ)) (k v p : ℚ) :
    lookupKV (insertKV m k v) p = if p = k then some v else lookupKV m p := by
  induction m with
  | nil => simp [insertKV, lookupKV]
  | cons kv t ih =>
    obtain ⟨a, b⟩ := kv
    simp only [insertKV]
    by_cases h1 : k < a
    · rw [if_pos h1]
      simp only [lookupKV]
    · rw [if_neg h1]
      by_cases h2 : k = a
      · subst h2
        rw [if_pos rfl]
        simp only [lookupKV]
        by_cases hp : p = k <;> simp [hp]
      · rw [if_neg h2]
        simp only [lookupKV]
        rw [ih]
        by_cases hp : p = a
        · have hpk : p ≠ k := fun hh => h2 (hh.symm.trans hp)
          have hak : a ≠ k := fun hh => h2 hh.symm
          simp [hp, hpk, hak]
        · simp [hp]

/-- Looking a price up after a removal yields nothing at that price and is
unchanged elsewhere. -/
theorem lookupKV_eraseKV (m : List (ℚ × ℚ)) (k p : ℚ) :
    lookupKV (eraseKV m k) p = if p = k then none else lookupKV m p := by
  induction m with
  | nil => simp [eraseKV, lookupKV]
  | cons kv t ih =>
    obtain ⟨a, b⟩ := kv
    simp only [eraseKV]
    by_cases ha : a = k
    · rw [if_pos ha, ih]
      by_cases hp : p = k
      · simp [hp]
      · have hpa : p ≠ a := fun hh => hp (hh.trans ha)
        simp [hp, lookupKV, hpa]
    · rw [if_neg ha]
      simp only [lookupKV]
      rw [ih]
      by_cases hp : p = a
      · have hpk : p ≠ k := fun hh => ha (hp.symm.trans hh)
        simp [hp, hpk, ha]
      · simp [hp]

/-- Applying a side's levels acts pointwise: at each price the last level
of the delta at that price wins, zero quantity meaning removal. -/
theorem lookupKV_applyLevels (ls : List PriceLevelRaw) (m : List (ℚ × ℚ)) (p : ℚ) :
    lookupKV (applyLevels m ls) p = levelLookup (lookupKV m p) ls p := by
  induction ls generalizing m with
  | nil => rfl
  | cons l t ih =>
    show lookupKV (applyLevels (if l.qty = 0 then eraseKV m l.price else insertKV m l.price l.qty) t) p = _
    rw [ih]
    show _ = levelLookup (if l.price = p then (if l.qty = 0 then none else some l.qty) else lookupKV m p) t p
    congr 1
    by_cases hq : l.qty = 0
    · rw [if_pos hq, lookupKV_eraseKV]
      by_cases hp : p = l.price
      · simp [hp, hq]
      · have hlp : l.price ≠ p := fun hh => hp hh.symm
        simp [hp, hlp]
    · rw [if_neg hq, lookupKV_insertKV]
      by_cases hp : p = l.price
      · simp [hp, hq]
      · have hlp : l.price ≠ p := fun hh => hp hh.symm
        simp [hp, hlp]

/-- C3: apply_update behaves exactly as specified — per level, zero
quantity removes the price and any other quantity inserts or replaces it
(last write winning); the sequence is incremented by one; the timestamp is
taken from the delta; a non-zero checksum is stored with `checksum_valid`
set to the comparison of the locally computed checksum against it, while a
zero checksum leaves both checksum fields untouched. -/
theorem c3_apply_update_exact (ob : Orderbook) (d : OrderbookData) :
    (ob.apply_update d).sequence = ob.sequence + 1 ∧
    (ob.apply_update d).timestamp = d.timestamp ∧
    (∀ p, lookupKV (ob.apply_update d).bids p = levelLookup (lookupKV ob.bids p) d.bids p) ∧
    (∀ p, lookupKV (ob.apply_update d).asks p = levelLookup (lookupKV ob.asks p) d.asks p) ∧
    (d.checksum ≠ 0 →
      (ob.apply_update d).last_checksum = d.checksum ∧
      (ob.apply_update d).checksum_valid =
        ((ob.apply_update d).calculate_checksum == d.checksum)) ∧
    (d.checksum = 0 →
      (ob.apply_update d).last_checksum = ob.last_checksum ∧
      (ob.apply_update d).checksum_valid = ob.checksum_valid) := by
  by_cases h : d.checksum = 0
  · simp [Orderbook.apply_update, h, lookupKV_applyLevels]
  · simp [Orderbook.apply_update, h, lookupKV_applyLevels, Orderbook.validate_checksum]
    exact Iff.rfl

/-- Witness for C3 at a concrete replica and a delta carrying checksum 7. -/
theorem c3_witness :
    c3Data.checksum ≠ 0 ∧
    (((Orderbook.new "W").apply_update c3Data).last_checksum = c3Data.checksum ∧
      ((Orderbook.new "W").apply_update c3Data).checksum_valid =
        (((Orderbook.new "W").apply_update c3Data).calculate_checksum == c3Data.checksum)) :=
  ⟨by decide, (c3_apply_update_exact (Orderbook.new "W") c3Data).2.2.2.2.1 (by decide)⟩

/-- Modifying a key of the replica map changes the looked-up value at that
key only. -/
theorem lookupBook_updateAt (m : List (String × Orderbook)) (key p : String)
    (f : Orderbook → Orderbook) :
    lookupBook (updateAt m key f) p =
      if p = key then (lookupBook m key).map f else lookupBook m p := by
  induction m with
  | nil => by_cases hp : p = key <;> simp [updateAt, lookupBook, hp]
  | cons kv t ih =>
    obtain ⟨a, b⟩ := kv
    by_cases hk : key = a
    · subst hk
      by_cases hp : p = key <;> simp [updateAt, lookupBook, hp]
    · by_cases hp : p = a
      · subst hp
        have : p ≠ key := fun h => hk h.symm
        simp [updateAt, lookupBook, hk, this]
      · by_cases hpk : p = key
        · subst hpk
          simp [updateAt, lookupBook, hk, hp, ih]
        · simp [updateAt, lookupBook, hk, hp, hpk, ih]

/-- Folding a message's deltas over the replica map acts, at each symbol,
as folding exactly that symbol's deltas over its replica. -/
theorem processOrderbook_lookup (l : List OrderbookData)
    (books : List (String × Orderbook)) (sym : String) :
    lookupBook
        (l.foldl (fun bs d => updateAt bs d.symbol (fun ob => ob.apply_update d)) books)
        sym =
      (lookupBook books sym).map
        (fun ob => (l.filter (fun d => d.symbol = sym)).foldl Orderbook.apply_update ob) := by
  induction l generalizing books with
  | nil => simp
  | cons d t ih =>
    rw [List.foldl_cons, ih, lookupBook_updateAt]
    by_cases hd : d.symbol = sym
    · rw [if_pos hd.symm]
      rcases hb : lookupBook books sym with _ | ob <;> simp [hb, List.filter_cons, hd]
    · have hsd : sym ≠ d.symbol := fun hh => hd hh.symm
      rw [if_neg hsd]
      simp [List.filter_cons, hd]

/-- C1 counterexample: a snapshot message does not replace the replica — a
bid at price 1 resting in the replica survives processing a snapshot that
carries no level at price 1, so the maps do not contain exactly the
snapshot's levels. -/
theorem c1_counterexample :
    c1Snap.update_type = OrderbookUpdateType.snapshot ∧
    (∀ d ∈ c1Snap.data, ∀ l ∈ d.bids, l.price ≠ 1) ∧
    (lookupBook (processOrderbookMessage c1Books c1Snap) "S").map
        (fun ob => lookupKV ob.bids 1) = some (some 5) := by
  decide

/-- C1 amended: the handler never consults the message type — snapshot and
update messages are processed identically, each per-symbol delta being
merged into the existing replica by apply_update; at every symbol the
result is the fold of that symbol's deltas over the prior replica (absent
symbols stay absent).  Replacement happens only because replicas are reset
to empty on reconnect before re-subscribing. -/
theorem c1_snapshot_merges (books : List (String × Orderbook))
    (u : OrderbookUpdate) (t : OrderbookUpdateType) :
    processOrderbookMessage books { u with update_type := t } =
      processOrderbookMessage books u ∧
    ∀ sym, lookupBook (processOrderbookMessage books u) sym =
      (lookupBook books sym).map
        (fun ob => (u.data.filter (fun d => d.symbol = sym)).foldl Orderbook.apply_update ob) :=
  ⟨rfl, fun sym => processOrderbook_lookup u.data books sym⟩

/-- C2 counterexample: a crossed replica is reachable from the empty book
by two individually uncrossed deltas — an ask at 10 then a bid at 20 —
after which both sides are non-empty and best_bid = 20 is not below
best_ask = 10. -/
theorem c2_counterexample :
    c2CrossedBook.bids ≠ [] ∧ c2CrossedBook.asks ≠ [] ∧
    c2CrossedBook.best_bid = some 20 ∧ c2CrossedBook.best_ask = some 10 ∧
    ¬ (20 : ℚ) < 10 := by
  decide

/-- C2 amended: nothing in apply_update enforces the uncrossed invariant,
and crossed replicas are reachable; best_bid is strictly below best_ask
exactly on replicas in which every bid price lies strictly below every ask
price (both sides non-empty). -/
theorem c2_uncrossed_best (ob : Orderbook) (hb : ob.bids ≠ []) (ha : ob.asks ≠ [])
    (h : ∀ p ∈ ob.bids, ∀ q ∈ ob.asks, p.1 < q.1) :
    ob.best_bid.isSome ∧ ob.best_ask.isSome ∧
    ∀ b a, ob.best_bid = some b → ob.best_ask = some a → b < a := by
  refine ⟨?_, ?_, ?_⟩
  · simp [Orderbook.best_bid, List.getLast?_eq_getLast _ hb]
  · simp [Orderbook.best_ask, List.head?_eq_head ha]
  · intro b a hbb haa
    simp [Orderbook.best_bid, List.getLast?_eq_getLast _ hb] at hbb
    simp [Orderbook.best_ask, List.head?_eq_head ha] at haa
    have hmb : ob.bids.getLast hb ∈ ob.bids := List.getLast_mem hb
    have hma : ob.asks.head ha ∈ ob.asks := List.head_mem ha
    have := h _ hmb _ hma
    rw [hbb] at this
    rwa [haa] at this

/-- A decimal digit character is never the decimal point. -/
theorem digitChar_ne_dot (d : ℕ) : digitChar d ≠ '.' := by
  unfold digitChar
  split <;> decide

/-- Rendering digits never produces a decimal point. -/
theorem dot_not_mem_natDigitsCore (fuel : ℕ) :
    ∀ (n : ℕ) (acc : List Char), '.' ∉ acc → '.' ∉ natDigitsCore fuel n acc := by
  induction fuel with
  | zero => intro n acc h; simpa [natDigitsCore] using h
  | succ f ih =>
    intro n acc h
    unfold natDigitsCore
    split
    · intro hmem
      rcases List.mem_cons.mp hmem with h1 | h2
      · exact digitChar_ne_dot n h1.symm
      · exact h h2
    · refine ih _ _ ?_
      intro hmem
      rcases List.mem_cons.mp hmem with h1 | h2
      · exact digitChar_ne_dot (n % 10) h1.symm
      · exact h h2

/-- No decimal point among the digits of a natural number. -/
theorem dot_not_mem_natDigits (n : ℕ) : '.' ∉ natDigits n :=
  dot_not_mem_natDigitsCore (n + 1) n [] (by simp)

/-- Zero-padding introduces no decimal point. -/
theorem dot_not_mem_padZeros (w : ℕ) (s : List Char) (h : '.' ∉ s) :
    '.' ∉ padZeros w s := by
  unfold padZeros
  intro hmem
  rcases List.mem_append.mp hmem with h1 | h2
  · have := List.eq_of_mem_replicate h1
    exact absurd this (by decide)
  · exact h h2

/-- The fixed-precision rendering splits as sign-and-integer digits, the
single decimal point, then the padded fractional digits. -/
theorem fmt10_parts (v : ℚ) :
    ∃ l₁ l₂, fmt10 v = l₁ ++ '.' :: l₂ ∧ '.' ∉ l₁ ∧ '.' ∉ l₂ := by
  unfold fmt10 fmt10abs fmtNat
  split
  · refine ⟨'-' :: natDigits ((roundTiesEven (-v * 10 ^ 10)).toNat / 10 ^ 10),
      padZeros 10 (natDigits ((roundTiesEven (-v * 10 ^ 10)).toNat % 10 ^ 10)), by simp, ?_, ?_⟩
    · intro hmem
      rcases List.mem_cons.mp hmem with h1 | h2
      · exact absurd h1 (by decide)
      · exact dot_not_mem_natDigits _ h2
    · exact dot_not_mem_padZeros _ _ (dot_not_mem_natDigits _)
  · exact ⟨natDigits ((roundTiesEven (v * 10 ^ 10)).toNat / 10 ^ 10),
      padZeros 10 (natDigits ((roundTiesEven (v * 10 ^ 10)).toNat % 10 ^ 10)), rfl,
      dot_not_mem_natDigits _, dot_not_mem_padZeros _ _ (dot_not_mem_natDigits _)⟩

/-- With a single decimal point present, erasing the first point equals
filtering every point out. -/
theorem fmt10_erase_eq_filter (v : ℚ) :
    (fmt10 v).erase '.' = (fmt10 v).filter (fun c => c ≠ '.') := by
  obtain ⟨l₁, l₂, he, h₁, h₂⟩ := fmt10_parts v
  have f₁ : l₁.filter (fun c => c ≠ '.') = l₁ := by
    apply List.filter_eq_self.mpr
    intro a ha
    have hne : a ≠ '.' := fun hc => h₁ (hc ▸ ha)
    simpa using hne
  have f₂ : l₂.filter (fun c => c ≠ '.') = l₂ := by
    apply List.filter_eq_self.mpr
    intro a ha
    have hne : a ≠ '.' := fun hc => h₂ (hc ▸ ha)
    simpa using hne
  rw [he, List.erase_append_right _ h₁, List.erase_cons_head, List.filter_append, f₁,
    List.filter_cons]
  simp only [ne_eq, decide_not] at f₂
  simp [f₂]

/-- The specification's leading-zero trim is dropWhile on the zero
character. -/
theorem specTrimLead_eq_dropWhile (l : List Char) :
    specTrimLead l = l.dropWhile (fun c => c = '0') := by
  induction l with
  | nil => rfl
  | cons c t ih =>
    by_cases hc : c = '0' <;> simp [specTrimLead, List.dropWhile_cons, hc, ih]

/-- The specification's trailing-zero trim agrees with the code's
trim_end_matches on the zero character. -/
theorem specTrimTrail_eq_dropTrailing (l : List Char) :
    specTrimTrail l = dropTrailing '0' l := by
  unfold specTrimTrail dropTrailing
  rw [specTrimLead_eq_dropWhile]

/-- The code's checksum formatter computes exactly the specification's
formatter. -/
theorem format_for_checksum_eq_spec (v : ℚ) :
    format_for_checksum v = format_spec v := by
  simp only [format_for_checksum, format_spec]
  rw [fmt10_erase_eq_filter, specTrimLead_eq_dropWhile, specTrimTrail_eq_dropTrailing]
  rcases h : (fmt10 v).filter (fun c => c ≠ '.') |>.dropWhile (fun c => c = '0') with _ | _ <;>
    simp [h]

/-- Pushing formatted levels onto an accumulator equals appending the
flattened per-level strings of the specification's formatter. -/
theorem foldl_format_append (l : List (ℚ × ℚ)) (init : List Char) :
    l.foldl (fun s kv => s ++ format_for_checksum kv.1 ++ format_for_checksum kv.2) init
      = init ++ (l.map (fun kv => format_spec kv.1 ++ format_spec kv.2)).flatten := by
  induction l generalizing init with
  | nil => simp
  | cons kv t ih =>
    rw [List.foldl_cons, ih, List.map_cons, List.flatten_cons]
    rw [format_for_checksum_eq_spec, format_for_checksum_eq_spec]
    simp [List.append_assoc]

/-- Rounding an integral rational is the identity. -/
theorem roundTiesEven_natCast (n : ℕ) : roundTiesEven (n : ℚ) = n := by
  simp only [roundTiesEven]
  rw [Int.floor_natCast]
  have hr : (n : ℚ) - ((n : ℤ) : ℚ) = 0 := by push_cast; ring
  rw [hr, if_pos (by norm_num)]

/-- Evaluating the fixed-precision rendering of a non-negative value whose
ten-digit scaling is a whole number. -/
theorem fmt10_eval (v : ℚ) (n : ℕ) (hv : ¬ v < 0) (h : v * 10 ^ 10 = (n : ℚ)) :
    fmt10 v = fmtNat n := by
  simp only [fmt10, fmt10abs, if_neg hv, h, roundTiesEven_natCast, Int.toNat_natCast]

/-- C4: the code's checksum is the reference checksum — ten lowest asks
ascending then ten highest bids descending, each level contributing its
formatted price then quantity, CRC-32 over the concatenation — and the
formatter maps 0, 50000.0, 0.001234 and 123.456 to the digit strings the
claim lists. -/
theorem c4_checksum_reference (ob : Orderbook) :
    ob.calculate_checksum = checksum_spec ob ∧
    String.mk (format_for_checksum 0) = "0" ∧
    String.mk (format_for_checksum 50000) = "5" ∧
    String.mk (format_for_checksum (1234 / 1000000)) = "1234" ∧
    String.mk (format_for_checksum (123456 / 1000)) = "123456" := by
  refine ⟨?_, ?_, ?_, ?_, ?_⟩
  · simp only [Orderbook.calculate_checksum, checksum_spec]
    rw [foldl_format_append, foldl_format_append]
    simp [List.map_append, List.flatten_append]
  · simp only [format_for_checksum, fmt10_eval 0 0 (by norm_num) (by norm_num)]
    decide
  · simp only [format_for_checksum,
      fmt10_eval 50000 500000000000000 (by norm_num) (by norm_num)]
    decide
  · simp only [format_for_checksum,
      fmt10_eval (1234 / 1000000) 12340000 (by norm_num) (by norm_num)]
    decide
  · simp only [format_for_checksum,
      fmt10_eval (123456 / 1000) 1234560000000 (by norm_num) (by norm_num)]
    decide

/-- Below the i32 boundary the wrapped exponent is the attempt itself. -/
theorem powiExp_eq (k : ℕ) (h : k < 2 ^ 31) : powiExp k = (k : ℤ) := by
  have hmod : k % 2 ^ 32 = k := Nat.mod_eq_of_lt (by omega)
  simp only [powiExp]
  rw [hmod, if_pos h]

/-- The saturating u64 cast is monotone. -/
theorem ratToU64_mono {q r : ℚ} (h : q ≤ r) : ratToU64 q ≤ ratToU64 r := by
  unfold ratToU64
  by_cases h0 : q < 0
  · rw [if_pos h0]
    exact Nat.zero_le _
  · have h0' : ¬ r < 0 := fun hr => h0 (lt_of_le_of_lt h hr)
    rw [if_neg h0, if_neg h0']
    exact min_le_min (Int.toNat_le_toNat (Int.floor_le_floor h)) (le_refl _)

/-- C5 amended: delay_for_attempt equals the truncated formula — the whole
milliseconds of the initial delay times the multiplier to the k-th power,
floored to an integer count of milliseconds and saturated at u64, capped by
max_delay (the attempt exponent is taken below the i32 wrap); and for a
multiplier at least one the delay is monotonically non-decreasing up to the
cap. -/
theorem c5_delay_truncated (c : ReconnectConfig) (k : ℕ)
    (hm : 1 ≤ c.backoff_multiplier) (hk : k + 1 < 2 ^ 31) :
    delay_for_attempt c k =
      min (1000000 * ratToU64 (((c.initial_delay / 1000000 : ℕ) : ℚ) *
        c.backoff_multiplier ^ k)) c.max_delay ∧
    delay_for_attempt c k ≤ delay_for_attempt c (k + 1) := by
  have hk0 : k < 2 ^ 31 := by omega
  constructor
  · simp only [delay_for_attempt]
    rw [powiExp_eq k hk0, zpow_natCast]
  · simp only [delay_for_attempt]
    rw [powiExp_eq k hk0, powiExp_eq (k + 1) hk, zpow_natCast, zpow_natCast]
    refine min_le_min (Nat.mul_le_mul_left _ (ratToU64_mono ?_)) (le_refl _)
    have hb : (0 : ℚ) ≤ ((c.initial_delay / 1000000 : ℕ) : ℚ) := by positivity
    exact mul_le_mul_of_nonneg_left (pow_le_pow_right₀ hm (Nat.le_succ k)) hb

/-- C5 counterexample: for the aggressive preset at attempt 3 the code
yields 337 ms (truncated) while the claim's exact formula yields 337.5 ms,
so the two are not equal. -/
theorem c5_counterexample :
    delay_for_attempt ReconnectConfig.aggressive 3 = 337000000 ∧
    claimDelay ReconnectConfig.aggressive 3 = 337500000 ∧
    ((delay_for_attempt ReconnectConfig.aggressive 3 : ℚ) ≠
      claimDelay ReconnectConfig.aggressive 3) := by
  have hp : powiExp 3 = (3 : ℤ) := powiExp_eq 3 (by norm_num)
  have harg : ((ReconnectConfig.aggressive.initial_delay / 1000000 : ℕ) : ℚ) *
      ReconnectConfig.aggressive.backoff_multiplier ^ powiExp 3 = 675 / 2 := by
    rw [hp, show ((3 : ℤ)) = ((3 : ℕ) : ℤ) from rfl, zpow_natCast]
    norm_num [ReconnectConfig.aggressive]
  have hfloor : ⌊(675 / 2 : ℚ)⌋ = 337 := by
    rw [Int.floor_eq_iff]
    norm_num
  have hcast : ratToU64 (675 / 2 : ℚ) = 337 := by
    unfold ratToU64
    rw [if_neg (by norm_num), hfloor]
    rw [show ((337 : ℤ)).toNat = 337 from rfl]
    rw [min_eq_left (by norm_num)]
  have h1 : delay_for_attempt ReconnectConfig.aggressive 3 = 337000000 := by
    simp only [delay_for_attempt]
    rw [harg, hcast]
    rw [show (1000000 * 337 : ℕ) = 337000000 from rfl]
    rw [min_eq_left (by norm_num [ReconnectConfig.aggressive])]
  have h2 : claimDelay ReconnectConfig.aggressive 3 = 337500000 := by
    simp only [claimDelay]
    rw [min_eq_left (by norm_num [ReconnectConfig.aggressive])]
    norm_num [ReconnectConfig.aggressive]
  refine ⟨h1, h2, ?_⟩
  rw [h1, h2]
  norm_num

/-- Witness for C5 at the default preset, attempts 2 and 3. -/
theorem c5_witness :
    (1 ≤ ReconnectConfig.default.backoff_multiplier) ∧ (2 + 1 < 2 ^ 31) ∧
    delay_for_attempt ReconnectConfig.default 2 ≤ delay_for_attempt ReconnectConfig.default 3 :=
  ⟨by norm_num [ReconnectConfig.default], by norm_num,
    (c5_delay_truncated ReconnectConfig.default 2
      (by norm_num [ReconnectConfig.default]) (by norm_num)).2⟩

/-- Byte length distributes over concatenation. -/
theorem byteLen_append (l₁ l₂ : List Char) :
    byteLen (l₁ ++ l₂) = byteLen l₁ + byteLen l₂ := by
  induction l₁ with
  | nil => simp [byteLen]
  | cons c t ih => simp [byteLen, ih]; omega

/-- takeWhile up to the first colon of a colon-free prefix returns that
prefix. -/
theorem takeWhile_until_colon (l r : List Char) (h : ':' ∉ l) :
    (l ++ ':' :: r).takeWhile (fun x => x ≠ ':') = l := by
  induction l with
  | nil => simp [List.takeWhile_cons]
  | cons c t ih =>
    have hc : c ≠ ':' := fun hh => h (hh ▸ List.mem_cons_self c t)
    have ht : ':' ∉ t := fun hh => h (List.mem_cons_of_mem c hh)
    rw [List.cons_append, List.takeWhile_cons_of_pos (by simpa using hc), ih ht]

/-- dropWhile up to the first colon of a colon-free prefix returns the
colon and the rest. -/
theorem dropWhile_until_colon (l r : List Char) (h : ':' ∉ l) :
    (l ++ ':' :: r).dropWhile (fun x => x ≠ ':') = ':' :: r := by
  induction l with
  | nil => simp [List.dropWhile_cons]
  | cons c t ih =>
    have hc : c ≠ ':' := fun hh => h (hh ▸ List.mem_cons_self c t)
    have ht : ':' ∉ t := fun hh => h (List.mem_cons_of_mem c hh)
    rw [List.cons_append, List.dropWhile_cons_of_pos (by simpa using hc), ih ht]

/-- C7 amended: with a colon-free category tag, `E`-strings parse to an
Error with that tag's category and the message trimmed of surrounding
whitespace, `W`-strings parse to a Warning likewise; a one-byte first
character other than `E`, `W` or the colon yields severity Unknown (not the
General fallback); and only inputs containing no colon at all fall back to
a General error carrying the whole input. -/
theorem c7_parse_exact (cat msg : String) (h : ':' ∉ cat.data) :
    parseKrakenApiError ("E" ++ cat ++ ":" ++ msg) =
      some ⟨.error, categoryOfTag cat, String.mk (rustTrim msg.data),
        "E" ++ cat ++ ":" ++ msg⟩ ∧
    parseKrakenApiError ("W" ++ cat ++ ":" ++ msg) =
      some ⟨.warning, categoryOfTag cat, String.mk (rustTrim msg.data),
        "W" ++ cat ++ ":" ++ msg⟩ ∧
    (∀ c : Char, c.utf8Size = 1 → c ≠ 'E' → c ≠ 'W' → c ≠ ':' →
      (parseKrakenApiError (String.mk (c :: (cat ++ ":" ++ msg).data))).map
          KrakenApiError.severity = some KrakenSeverity.unknown) ∧
    (∀ s : String, ':' ∉ s.data → parseKrakenApiError s = some (generalFallback s)) := by
  have hdataE : ("E" ++ cat ++ ":" ++ msg).data = 'E' :: (cat.data ++ ':' :: msg.data) := by
    simp [String.data_append]
  have hdataW : ("W" ++ cat ++ ":" ++ msg).data = 'W' :: (cat.data ++ ':' :: msg.data) := by
    simp [String.data_append]
  have hlen : ∀ c : Char, 2 ≤ byteLen (c :: (cat.data ++ ':' :: msg.data)) := by
    intro c
    have h1 : 1 ≤ c.utf8Size := Nat.one_le_iff_ne_zero.mpr (Nat.pos_iff_ne_zero.mp c.utf8Size_pos)
    simp only [byteLen, byteLen_append]
    have : 1 ≤ (':').utf8Size := by decide
    omega
  have hmem : ∀ c : Char, ':' ∈ c :: (cat.data ++ ':' :: msg.data) := by
    intro c
    simp
  have hcat : String.mk ((cat.data ++ ':' :: msg.data).takeWhile (fun x => x ≠ ':')) = cat := by
    rw [takeWhile_until_colon _ _ h]
  have hmsg : ((cat.data ++ ':' :: msg.data).dropWhile (fun x => x ≠ ':')).drop 1 = msg.data := by
    rw [dropWhile_until_colon _ _ h]
    rfl
  have hdataM : (cat ++ ":" ++ msg).data = cat.data ++ ':' :: msg.data := by
    simp [String.data_append]
  refine ⟨?_, ?_, ?_, ?_⟩
  · simp only [parseKrakenApiError, hdataE]
    rw [if_pos (hlen 'E'), if_pos (hmem 'E'),
      if_neg (show ¬('E' : Char) = ':' by decide),
      if_neg (show ¬('E' : Char).utf8Size ≠ 1 by decide),
      takeWhile_until_colon _ _ h, dropWhile_until_colon _ _ h]
    simp
  · simp only [parseKrakenApiError, hdataW]
    rw [if_pos (hlen 'W'), if_pos (hmem 'W'),
      if_neg (show ¬('W' : Char) = ':' by decide),
      if_neg (show ¬('W' : Char).utf8Size ≠ 1 by decide),
      takeWhile_until_colon _ _ h, dropWhile_until_colon _ _ h]
    simp
  · intro c hsz hcE hcW hcC
    simp only [parseKrakenApiError, hdataM]
    rw [if_pos (hlen c), if_pos (hmem c), if_neg hcC, if_neg (by simp [hsz])]
    simp [hcE, hcW]
  · intro s hs
    simp only [parseKrakenApiError]
    by_cases hb : 2 ≤ byteLen s.data
    · rw [if_pos hb, if_neg hs]
    · rw [if_neg hb]

/-- C7 counterexample: the colon-containing input `XQuery:m` does not match
the claimed severity form, yet the parser returns severity Unknown and
category Query rather than the claimed (Error, General, whole input); and
the message of `EQuery: a` is trimmed to `a`, not the exact text after the
colon. -/
theorem c7_counterexample :
    (parseKrakenApiError "XQuery:m").map KrakenApiError.severity =
      some KrakenSeverity.unknown ∧
    (parseKrakenApiError "XQuery:m").map KrakenApiError.category =
      some KrakenCategory.query ∧
    KrakenSeverity.unknown ≠ KrakenSeverity.error ∧
    (parseKrakenApiError "EQuery: a").map KrakenApiError.message = some "a" ∧
    ("a" : String) ≠ " a" := by
  decide

/-- Witness for C7 on the concrete input `EQuery:Unavailable`. -/
theorem c7_witness :
    (':' ∉ "Query".data) ∧
    parseKrakenApiError ("E" ++ "Query" ++ ":" ++ "Unavailable") =
      some ⟨.error, categoryOfTag "Query", String.mk (rustTrim "Unavailable".data),
        "E" ++ "Query" ++ ":" ++ "Unavailable"⟩ :=
  ⟨by decide, (c7_parse_exact "Query" "Unavailable" (by decide)).1⟩

/-- Unfolding one produce step of a run. -/
theorem runOps_produce {α : Type} (C : ℕ) (a : α) (t : List (ChanOp α))
    (st : ChannelState α) :
    runOps C (ChanOp.produce a :: t) st = runOps C t (trySend C st a) := rfl

/-- Unfolding one consume step of a run. -/
theorem runOps_consume {α : Type} (C : ℕ) (t : List (ChanOp α))
    (st : ChannelState α) :
    runOps C (ChanOp.consume :: t) st = runOps C t (recvOne st) := rfl

/-- A send into a non-full queue enqueues the item and counts a delivery. -/
theorem trySend_pos {α : Type} (C : ℕ) (st : ChannelState α) (a : α)
    (h : st.queue.length < C) :
    trySend C st a = ⟨st.queue ++ [a], st.delivered + 1, st.dropped, st.received⟩ := by
  unfold trySend
  rw [if_pos h]

/-- A send into a full queue discards the item and counts a drop. -/
theorem trySend_neg {α : Type} (C : ℕ) (st : ChannelState α) (a : α)
    (h : ¬ st.queue.length < C) :
    trySend C st a = ⟨st.queue, st.delivered, st.dropped + 1, st.received⟩ := by
  unfold trySend
  rw [if_neg h]

/-- Receiving from an empty queue does nothing. -/
theorem recvOne_nil {α : Type} (st : ChannelState α) (h : st.queue = []) :
    recvOne st = st := by
  simp [recvOne, h]

/-- Receiving pops the queue head onto the received list. -/
theorem recvOne_cons {α : Type} (st : ChannelState α) (a : α) (rest : List α)
    (h : st.queue = a :: rest) :
    recvOne st = ⟨rest, st.delivered, st.dropped, st.received ++ [a]⟩ := by
  simp [recvOne, h]

/-- Running an interleaving adds exactly one delivery-or-drop per produce. -/
theorem runOps_count {α : Type} (C : ℕ) (ops : List (ChanOp α)) :
    ∀ st : ChannelState α,
      (runOps C ops st).delivered + (runOps C ops st).dropped =
        st.delivered + st.dropped + numProduces ops := by
  induction ops with
  | nil => intro st; rfl
  | cons op t ih =>
    intro st
    cases op with
    | produce a =>
      rw [runOps_produce]
      by_cases hroom : st.queue.length < C
      · rw [trySend_pos C st a hroom]
        have := ih ⟨st.queue ++ [a], st.delivered + 1, st.dropped, st.received⟩
        simp [numProduces] at this ⊢
        omega
      · rw [trySend_neg C st a hroom]
        have := ih ⟨st.queue, st.delivered, st.dropped + 1, st.received⟩
        simp [numProduces] at this ⊢
        omega
    | consume =>
      rw [runOps_consume]
      rcases hq : st.queue with _ | ⟨a, rest⟩
      · rw [recvOne_nil st hq]
        exact ih st
      · rw [recvOne_cons st a rest hq]
        have := ih ⟨rest, st.delivered, st.dropped, st.received ++ [a]⟩
        simp [numProduces] at this ⊢
        omega

/-- Conservation: queue length plus received count grows exactly with the
deliveries. -/
theorem runOps_flow {α : Type} (C : ℕ) (ops : List (ChanOp α)) :
    ∀ st : ChannelState α,
      (runOps C ops st).queue.length + (runOps C ops st).received.length +
          st.delivered =
        st.queue.length + st.received.length + (runOps C ops st).delivered := by
  induction ops with
  | nil => intro st; rfl
  | cons op t ih =>
    intro st
    cases op with
    | produce a =>
      rw [runOps_produce]
      by_cases hroom : st.queue.length < C
      · rw [trySend_pos C st a hroom]
        have := ih ⟨st.queue ++ [a], st.delivered + 1, st.dropped, st.received⟩
        simp at this ⊢
        omega
      · rw [trySend_neg C st a hroom]
        have := ih ⟨st.queue, st.delivered, st.dropped + 1, st.received⟩
        simp at this ⊢
        omega
    | consume =>
      rw [runOps_consume]
      rcases hq : st.queue with _ | ⟨a, rest⟩
      · rw [recvOne_nil st hq]
        have := ih st
        rw [hq] at this
        simpa using this
      · rw [recvOne_cons st a rest hq]
        have := ih ⟨rest, st.delivered, st.dropped, st.received ++ [a]⟩
        simp at this ⊢
        omega

/-- The queue never exceeds the capacity. -/
theorem runOps_queue_bound {α : Type} (C : ℕ) (ops : List (ChanOp α)) :
    ∀ st : ChannelState α, st.queue.length ≤ C →
      (runOps C ops st).queue.length ≤ C := by
  induction ops with
  | nil => intro st h; exact h
  | cons op t ih =>
    intro st h
    cases op with
    | produce a =>
      rw [runOps_produce]
      by_cases hroom : st.queue.length < C
      · rw [trySend_pos C st a hroom]
        refine ih _ ?_
        simp
        omega
      · rw [trySend_neg C st a hroom]
        exact ih _ h
    | consume =>
      rw [runOps_consume]
      rcases hq : st.queue with _ | ⟨a, rest⟩
      · rw [recvOne_nil st hq]
        exact ih st h
      · rw [recvOne_cons st a rest hq]
        refine ih _ ?_
        rw [hq] at h
        simp at h ⊢
        omega

/-- The received list grows by at most one item per consume. -/
theorem runOps_recv_bound {α : Type} (C : ℕ) (ops : List (ChanOp α)) :
    ∀ st : ChannelState α,
      (runOps C ops st).received.length ≤ st.received.length + numConsumes ops := by
  induction ops with
  | nil => intro st; simp [runOps, numConsumes]
  | cons op t ih =>
    intro st
    cases op with
    | produce a =>
      rw [runOps_produce]
      by_cases hroom : st.queue.length < C
      · rw [trySend_pos C st a hroom]
        have := ih ⟨st.queue ++ [a], st.delivered + 1, st.dropped, st.received⟩
        simp [numConsumes] at this ⊢
        omega
      · rw [trySend_neg C st a hroom]
        have := ih ⟨st.queue, st.delivered, st.dropped + 1, st.received⟩
        simp [numConsumes] at this ⊢
        omega
    | consume =>
      rw [runOps_consume]
      rcases hq : st.queue with _ | ⟨a, rest⟩
      · rw [recvOne_nil st hq]
        have := ih st
        simp [numConsumes] at this ⊢
        omega
      · rw [recvOne_cons st a rest hq]
        have := ih ⟨rest, st.delivered, st.dropped, st.received ++ [a]⟩
        simp [numConsumes] at this ⊢
        omega

/-- With the queue kept below capacity at every produce, nothing is
dropped. -/
theorem runOps_neverFull {α : Type} (C : ℕ) (ops : List (ChanOp α)) :
    ∀ st : ChannelState α, neverFull C st ops = true →
      (runOps C ops st).dropped = st.dropped := by
  induction ops with
  | nil => intro st _; rfl
  | cons op t ih =>
    intro st h
    cases op with
    | produce a =>
      simp only [neverFull, Bool.and_eq_true, decide_eq_true_eq] at h
      rw [runOps_produce, ih (trySend C st a) h.2, trySend_pos C st a h.1]
    | consume =>
      simp only [neverFull] at h
      rw [runOps_consume, ih (recvOne st) h]
      rcases hq : st.queue with _ | ⟨a, rest⟩
      · rw [recvOne_nil st hq]
      · rw [recvOne_cons st a rest hq]

/-- The received items followed by the still-queued items form a
subsequence of the produced items, in production order. -/
theorem runOps_fifo {α : Type} (C : ℕ) (ops : List (ChanOp α)) :
    ∀ st : ChannelState α, ∃ l,
      (runOps C ops st).received ++ (runOps C ops st).queue =
        st.received ++ st.queue ++ l ∧ l.Sublist (producedItems ops) := by
  induction ops with
  | nil => intro st; exact ⟨[], by simp [runOps], List.Sublist.refl _⟩
  | cons op t ih =>
    intro st
    cases op with
    | produce a =>
      by_cases hroom : st.queue.length < C
      · obtain ⟨l, hl, hs⟩ := ih ⟨st.queue ++ [a], st.delivered + 1, st.dropped, st.received⟩
        refine ⟨a :: l, ?_, hs.cons₂ a⟩
        rw [runOps_produce, trySend_pos C st a hroom, hl]
        simp
      · obtain ⟨l, hl, hs⟩ := ih ⟨st.queue, st.delivered, st.dropped + 1, st.received⟩
        refine ⟨l, ?_, hs.cons a⟩
        rw [runOps_produce, trySend_neg C st a hroom, hl]
    | consume =>
      rcases hq : st.queue with _ | ⟨a, rest⟩
      · obtain ⟨l, hl, hs⟩ := ih st
        refine ⟨l, ?_, hs⟩
        rw [runOps_consume, recvOne_nil st hq, hl]
        simp [hq]
      · obtain ⟨l, hl, hs⟩ := ih ⟨rest, st.delivered, st.dropped, st.received ++ [a]⟩
        refine ⟨l, ?_, hs⟩
        rw [runOps_consume, recvOne_cons st a rest hq, hl]
        simp

/-- C8: over any interleaving on a bounded queue of capacity C — a send
into a non-full queue enqueues and counts a delivery, a send into a full
queue discards the item and counts a drop (the producer never waits);
after P produces and K consumes, delivered + dropped = P; if P exceeds
K + C then at least P − K − C items were dropped; a consumer that keeps the
queue below capacity at every produce sees zero drops; and the consumer
receives items in production order (received plus still-queued items form a
subsequence of the produced sequence). -/
theorem c8_backpressure {α : Type} (C : ℕ) (ops : List (ChanOp α)) :
    (∀ (st : ChannelState α) (a : α), st.queue.length < C →
      trySend C st a =
        ⟨st.queue ++ [a], st.delivered + 1, st.dropped, st.received⟩) ∧
    (∀ (st : ChannelState α) (a : α), ¬ st.queue.length < C →
      trySend C st a = ⟨st.queue, st.delivered, st.dropped + 1, st.received⟩) ∧
    (runOps C ops initChan).delivered + (runOps C ops initChan).dropped =
      numProduces ops ∧
    (numConsumes ops + C < numProduces ops →
      numProduces ops - numConsumes ops - C ≤ (runOps C ops initChan).dropped) ∧
    (neverFull C initChan ops = true → (runOps C ops initChan).dropped = 0) ∧
    (runOps C ops initChan).received.Sublist (producedItems ops) ∧
    ((runOps C ops initChan).received ++ (runOps C ops initChan).queue).Sublist
      (producedItems ops) := by
  obtain ⟨l, hl, hs⟩ := runOps_fifo C ops initChan
  have hl' : (runOps C ops initChan).received ++ (runOps C ops initChan).queue = l := by
    simpa [initChan] using hl
  refine ⟨trySend_pos C, trySend_neg C, ?_, ?_, ?_, ?_, ?_⟩
  · have hcount := runOps_count C ops initChan
    simpa [initChan] using hcount
  · intro hover
    have hcount := runOps_count C ops initChan
    have hflow := runOps_flow C ops initChan
    have hqb := runOps_queue_bound C ops initChan (by simp [initChan])
    have hrb := runOps_recv_bound C ops initChan
    simp only [initChan] at hcount hflow hqb hrb ⊢
    omega
  · intro hnf
    have := runOps_neverFull C ops initChan hnf
    simpa [initChan] using this
  · exact (List.sublist_append_left _ _).trans (hl' ▸ hs)
  · exact hl' ▸ hs

/-- Witness for C8: three produces and one consume at capacity one
overflow the queue, and the drop bound is met. -/
theorem c8_witness :
    (numConsumes c8Ops + 1 < numProduces c8Ops) ∧
    numProduces c8Ops - numConsumes c8Ops - 1 ≤ (runOps 1 c8Ops initChan).dropped :=
  ⟨by decide, (c8_backpressure 1 c8Ops).2.2.2.1 (by decide)⟩

/-- A try-send always settles exactly one way: one delivery or one drop. -/
theorem trySend_count {α : Type} (C : ℕ) (st : ChannelState α) (a : α) :
    (trySend C st a).delivered + (trySend C st a).dropped =
      st.delivered + st.dropped + 1 := by
  unfold trySend
  split <;> simp <;> omega

/-- Folding an orderbook message's payload elements over the registry
adds, at every endpoint, one send attempt per element whose symbol matches
that endpoint's filter. -/
theorem dispatchOB_fold (C : ℕ) (u : OrderbookUpdate) (l : List OrderbookData) :
    ∀ (subs : List OrderbookSubEntry) (i : ℕ),
      ((l.foldl
          (fun ss d =>
            ss.map (fun sub =>
              if sub.symbol = d.symbol ∨ sub.symbol = "*" then
                { sub with chan := trySend C sub.chan u }
              else sub))
          subs)[i]?).map (fun s => (s.symbol, s.chan.delivered + s.chan.dropped)) =
      (subs[i]?).map
        (fun s => (s.symbol, s.chan.delivered + s.chan.dropped + matchCountOB s.symbol l)) := by
  induction l with
  | nil =>
    intro subs i
    cases h : subs[i]? <;> simp [h, matchCountOB]
  | cons d t ih =>
    intro subs i
    rw [List.foldl_cons, ih, List.getElem?_map]
    cases h : subs[i]? with
    | none => rfl
    | some sub =>
      by_cases hm : sub.symbol = d.symbol ∨ sub.symbol = "*"
      · have hc := trySend_count C sub.chan u
        simp [if_pos hm, matchCountOB, List.filter_cons, hm]
        omega
      · simp [if_neg hm, matchCountOB, List.filter_cons, hm]

/-- The trade dispatcher obeys the same per-element accounting. -/
theorem dispatchTR_fold (C : ℕ) (l : List TradeDataRaw) :
    ∀ (subs : List TradeSubEntry) (i : ℕ),
      ((l.foldl
          (fun ss d =>
            ss.map (fun sub =>
              if sub.symbol = d.to_trade.symbol ∨ sub.symbol = "*" then
                { sub with chan := trySend C sub.chan d.to_trade }
              else sub))
          subs)[i]?).map (fun s => (s.symbol, s.chan.delivered + s.chan.dropped)) =
      (subs[i]?).map
        (fun s => (s.symbol, s.chan.delivered + s.chan.dropped + matchCountTr s.symbol l)) := by
  induction l with
  | nil =>
    intro subs i
    cases h : subs[i]? <;> simp [h, matchCountTr]
  | cons d t ih =>
    intro subs i
    rw [List.foldl_cons, ih, List.getElem?_map]
    cases h : subs[i]? with
    | none => rfl
    | some sub =>
      by_cases hm : sub.symbol = d.to_trade.symbol ∨ sub.symbol = "*"
      · have hc := trySend_count C sub.chan d.to_trade
        simp [if_pos hm, matchCountTr, List.filter_cons, hm]
        omega
      · simp [if_neg hm, matchCountTr, List.filter_cons, hm]

/-- C9 counterexample: one inbound orderbook message whose data array
carries two payload elements for the subscribed symbol produces two send
attempts on that subscription, not at most one. -/
theorem c9_counterexample :
    (dispatch_orderbook 10 c9Subs c9Update).map
        (fun s => s.chan.delivered + s.chan.dropped) = [2] ∧
    (2 : ℕ) ≠ 1 := by
  decide

/-- C9 amended: for every registered endpoint, dispatching a typed update
attempts exactly one non-blocking send per element of the message's data
array whose symbol equals the endpoint's filter or for which the filter is
the wildcard — so a message with several matching per-symbol payload
elements is sent that many times, and an endpoint with no matching element
is left untouched.  This holds for both the orderbook and the trade
dispatchers. -/
theorem c9_fanout_per_element (C : ℕ) (subs : List OrderbookSubEntry)
    (tsubs : List TradeSubEntry) (u : OrderbookUpdate) (tu : TradeUpdate) (i : ℕ) :
    ((dispatch_orderbook C subs u)[i]?).map
        (fun s => (s.symbol, s.chan.delivered + s.chan.dropped)) =
      (subs[i]?).map
        (fun s => (s.symbol, s.chan.delivered + s.chan.dropped +
          matchCountOB s.symbol u.data)) ∧
    ((dispatch_trade C tsubs tu)[i]?).map
        (fun s => (s.symbol, s.chan.delivered + s.chan.dropped)) =
      (tsubs[i]?).map
        (fun s => (s.symbol, s.chan.delivered + s.chan.dropped +
          matchCountTr s.symbol tu.data)) :=
  ⟨dispatchOB_fold C u u.data subs i, dispatchTR_fold C tu.data tsubs i⟩

/-- A zero-checksum delta leaves the checksum fields untouched. -/
theorem apply_update_zero_checksum (ob : Orderbook) (d : OrderbookData)
    (h : d.checksum = 0) :
    (ob.apply_update d).checksum_valid = ob.checksum_valid ∧
    (ob.apply_update d).last_checksum = ob.last_checksum := by
  simp [Orderbook.apply_update, h]

/-- Folding zero-checksum deltas preserves the validity flag. -/
theorem foldl_zero_checksum_valid (ds : List OrderbookData) :
    ∀ ob : Orderbook, (∀ d ∈ ds, d.checksum = 0) →
      (ds.foldl Orderbook.apply_update ob).checksum_valid = ob.checksum_valid := by
  induction ds with
  | nil => intro ob _; rfl
  | cons d t ih =>
    intro ob h
    rw [List.foldl_cons, ih (ob.apply_update d) (fun x hx => h x (List.mem_cons_of_mem d hx)),
      (apply_update_zero_checksum ob d (h d (List.mem_cons_self d t))).1]

/-- C10: a fresh replica starts with checksum_valid true and keeps it true
under any sequence of zero-checksum updates; is_orderbook_valid is none
exactly when no replica exists for the pair, and answers some true for a
pair whose replica was built from a fresh book by zero-checksum updates
only. -/
theorem c10_checksum_valid_default (s : String) (ds : List OrderbookData)
    (books : List (String × Orderbook)) (pair : String) :
    (Orderbook.new s).checksum_valid = true ∧
    ((∀ d ∈ ds, d.checksum = 0) →
      (ds.foldl Orderbook.apply_update (Orderbook.new s)).checksum_valid = true) ∧
    (is_orderbook_valid books pair = none ↔ lookupBook books pair = none) ∧
    (lookupBook books pair = some (ds.foldl Orderbook.apply_update (Orderbook.new s)) →
      (∀ d ∈ ds, d.checksum = 0) → is_orderbook_valid books pair = some true) := by
  refine ⟨rfl, ?_, ?_, ?_⟩
  · intro h
    rw [foldl_zero_checksum_valid ds (Orderbook.new s) h]
    rfl
  · unfold is_orderbook_valid
    cases lookupBook books pair <;> simp
  · intro hb h
    unfold is_orderbook_valid
    rw [hb]
    show some ((ds.foldl Orderbook.apply_update (Orderbook.new s)).checksum_valid) = some true
    rw [foldl_zero_checksum_valid ds (Orderbook.new s) h]
    rfl

/-- Witness for C10 at a concrete one-symbol replica map built by a single
zero-checksum delta. -/
theorem c10_witness :
    (lookupBook c10Books "B" =
      some ([c10Delta].foldl Orderbook.apply_update (Orderbook.new "B"))) ∧
    (∀ d ∈ [c10Delta], d.checksum = 0) ∧
    is_orderbook_valid c10Books "B" = some true :=
  ⟨by decide, by decide,
    (c10_checksum_valid_default "B" [c10Delta] c10Books "B").2.2.2 (by decide) (by decide)⟩

/-- Witness for C2 at a concrete uncrossed replica. -/
theorem c2_witness :
    c2GoodBook.bids ≠ [] ∧ c2GoodBook.asks ≠ [] ∧
    (∀ p ∈ c2GoodBook.bids, ∀ q ∈ c2GoodBook.asks, p.1 < q.1) ∧
    (∀ b a, c2GoodBook.best_bid = some b → c2GoodBook.best_ask = some a → b < a) :=
  ⟨by decide, by decide, by decide,
    (c2_uncrossed_best c2GoodBook (by decide) (by decide) (by decide)).2.2⟩

end Kraky
